import Mathlib

/-!
Shallow embedding of the expression-compiler front end in
`src/Tutorials/Week4/src/expr.c`: token/AST data model, the temporary-name
allocator `NewTemp`, the recursive-descent parser
(`PrimaryExpression` / `MultiplicativeExpression` / `AdditiveExpression` /
`Expression`) and the evaluator / IR emitter `EvalExpression`.

Modelling conventions:
* The token source (`curToken`, `NEXT_TOKEN`, `Expect` from `lex.h`) is a
  list of tokens threaded through a parser state; reading past the end of
  the list yields an end-of-input token (`TK_EOF`), as the spec requires of
  the collaborator.
* The process-wide temporary counter `tmpNo` is a field of the same state.
* Fatal parse errors (`Error`, failed `Expect`) are modelled by an error
  result; recursion through the grammar is fuelled, `outOfFuel` being the
  artefact result when the fuel bound is hit.
* `EmitIR printf` is modelled by a list of emitted instruction lines, and
  the `Error` call inside `EvalExpression` (which is followed by
  `return 0;` in the C code) by a list of reported messages.
* C `long` arithmetic is modelled on `Int`; C division truncates toward
  zero, which is `Int.tdiv`.
-/

namespace Expr

/-- Token kinds used by `expr.c` (from the lexer boundary). -/
inductive TokenKind where
  | TK_NUM
  | TK_ADD
  | TK_SUB
  | TK_MUL
  | TK_DIV
  | TK_LPAREN
  | TK_RPAREN
  | TK_EOF
  deriving DecidableEq, Repr

open TokenKind

/-- The `Value` payload of a token / AST node: a name buffer and a numeric
value (`long numVal`). A `memset`-zeroed value has an empty name and 0. -/
structure Value where
  name : String
  numVal : Int
  deriving DecidableEq, Repr

/-- A token: a kind plus a value payload. -/
structure Token where
  kind : TokenKind
  value : Value
  deriving DecidableEq, Repr

/-- An AST expression node pointer: either NULL or a node carrying
`op`, `value` and the two `kids` pointers, as in `struct astExprNode`. -/
inductive AstExprNodePtr where
  | null
  | node (op : TokenKind) (value : Value) (kid0 kid1 : AstExprNodePtr)
  deriving DecidableEq, Repr

/-- Parser state: the remaining token stream (the head is `curToken`)
and the process-wide temporary counter `tmpNo`. -/
structure PState where
  toks : List Token
  tmpNo : Nat
  deriving DecidableEq, Repr

/-- The end-of-input token the token source produces once exhausted. -/
def eofToken : Token := ⟨TK_EOF, ⟨"", 0⟩⟩

/-- `curToken`: the lookahead token. -/
def curToken (s : PState) : Token :=
  match s.toks with
  | [] => eofToken
  | t :: _ => t

/-- `NEXT_TOKEN`: discard the current token, load the next one. -/
def advance (s : PState) : PState :=
  { s with toks := s.toks.tail }

/-- `NewTemp`: `return tmpNo++;` — yields the current counter value and
increments the process-wide counter. -/
def NewTemp (s : PState) : Nat × PState :=
  (s.tmpNo, { s with tmpNo := s.tmpNo + 1 })

/-- The name `snprintf(value.name, MAX_ID_LEN, "t%d", n)` produces. -/
def tempName (n : Nat) : String := "t" ++ toString n

/-- `CreateAstExprNode`: allocate a node with the given operator, value
payload, and children. -/
def CreateAstExprNode (tk : TokenKind) (v : Value) (l r : AstExprNodePtr) :
    AstExprNodePtr :=
  AstExprNodePtr.node tk v l r

/-- A fatal parse error (the `Error` collaborator), or fuel exhaustion
(an artefact of the fuelled embedding, not a behaviour of the C code). -/
inductive PError where
  | fatal (msg : String)
  | outOfFuel
  deriving DecidableEq, Repr

/-- Result of a parsing function: a fatal error, or a tree and the
successor state. -/
abbrev PResult := Except PError (AstExprNodePtr × PState)

/-- `Expect(tk)` from the lexer boundary, modelled from the spec: asserts
the current token matches, advances past it, or raises a fatal parse
error. -/
def Expect (tk : TokenKind) (s : PState) : Except PError PState :=
  if (curToken s).kind = tk then Except.ok (advance s)
  else Except.error (PError.fatal "unexpected token")

mutual

/-- `PrimaryExpression`: `NUM | ( Expression )`. -/
def PrimaryExpression : Nat → PState → PResult
  | 0, _ => Except.error PError.outOfFuel
  | n + 1, s =>
    if (curToken s).kind = TK_NUM then
      Except.ok (CreateAstExprNode TK_NUM (curToken s).value .null .null,
        advance s)
    else if (curToken s).kind = TK_LPAREN then
      match Expression n (advance s) with
      | Except.error e => Except.error e
      | Except.ok (t, s1) =>
        match Expect TK_RPAREN s1 with
        | Except.error e => Except.error e
        | Except.ok s2 => Except.ok (t, s2)
    else
      Except.error (PError.fatal "number or parenthesis expected")

/-- The `while (curToken.kind == TK_MUL || curToken.kind == TK_DIV)` loop
of `MultiplicativeExpression`, with the accumulated left operand. -/
def MultiplicativeLoop : Nat → AstExprNodePtr → PState → PResult
  | 0, _, _ => Except.error PError.outOfFuel
  | n + 1, left, s =>
    if (curToken s).kind = TK_MUL ∨ (curToken s).kind = TK_DIV then
      let op := (curToken s).kind
      let (t, s1) := NewTemp s
      let v : Value := ⟨tempName t, 0⟩
      match PrimaryExpression n (advance s1) with
      | Except.error e => Except.error e
      | Except.ok (right, s2) =>
        MultiplicativeLoop n (CreateAstExprNode op v left right) s2
    else
      Except.ok (left, s)

/-- `MultiplicativeExpression`: a `PrimaryExpression` followed by the
`*` / `/` loop. -/
def MultiplicativeExpression : Nat → PState → PResult
  | 0, _ => Except.error PError.outOfFuel
  | n + 1, s =>
    match PrimaryExpression n s with
    | Except.error e => Except.error e
    | Except.ok (left, s1) => MultiplicativeLoop n left s1

/-- The `while (curToken.kind == TK_SUB || curToken.kind == TK_ADD)` loop
of `AdditiveExpression`, with the accumulated left operand. -/
def AdditiveLoop : Nat → AstExprNodePtr → PState → PResult
  | 0, _, _ => Except.error PError.outOfFuel
  | n + 1, left, s =>
    if (curToken s).kind = TK_SUB ∨ (curToken s).kind = TK_ADD then
      let op := (curToken s).kind
      let (t, s1) := NewTemp s
      let v : Value := ⟨tempName t, 0⟩
      match MultiplicativeExpression n (advance s1) with
      | Except.error e => Except.error e
      | Except.ok (right, s2) =>
        AdditiveLoop n (CreateAstExprNode op v left right) s2
    else
      Except.ok (left, s)

/-- `AdditiveExpression`: a `MultiplicativeExpression` followed by the
`+` / `-` loop. -/
def AdditiveExpression : Nat → PState → PResult
  | 0, _ => Except.error PError.outOfFuel
  | n + 1, s =>
    match MultiplicativeExpression n s with
    | Except.error e => Except.error e
    | Except.ok (left, s1) => AdditiveLoop n left s1

/-- `Expression`: just an `AdditiveExpression`. -/
def Expression : Nat → PState → PResult
  | 0, _ => Except.error PError.outOfFuel
  | n + 1, s => AdditiveExpression n s

end

/-- `isArithmeticOperator`. -/
def isArithmeticOperator (tk : TokenKind) : Bool :=
  tk = TK_ADD ∨ tk = TK_SUB ∨ tk = TK_MUL ∨ tk = TK_DIV

/-- The name field of a (non-null) node, `p->value.name`. -/
def nameOf : AstExprNodePtr → String
  | .null => ""
  | .node _ v _ _ => v.name

/-- One emitted IR line, `EmitIR("%s = %s OP %s\n", ...)` without the
trailing newline. -/
def irLine (dst l opSym r : String) : String :=
  dst ++ " = " ++ l ++ " " ++ opSym ++ " " ++ r

/-- `EvalExpression`: postorder evaluation plus IR emission. The result is
`none` when an `assert` would fail (null root or a null child of an
arithmetic node); otherwise `some` of the numeric result, the emitted IR
lines in order, and the messages reported through `Error` (after which the
C code continues with `return 0;`). -/
def EvalExpression : AstExprNodePtr → Option (Int × List String × List String)
  | .null => none
  | .node op v k0 k1 =>
    if op = TK_NUM then
      some (v.numVal, [], [])
    else if isArithmeticOperator op then
      if k0 = .null then none
      else if k1 = .null then none
      else
        match EvalExpression k0, EvalExpression k1 with
        | some (lv, lir, lerr), some (rv, rir, rerr) =>
          match op with
          | TK_ADD =>
            some (lv + rv,
              lir ++ rir ++ [irLine v.name (nameOf k0) "+" (nameOf k1)],
              lerr ++ rerr)
          | TK_SUB =>
            some (lv - rv,
              lir ++ rir ++ [irLine v.name (nameOf k0) "-" (nameOf k1)],
              lerr ++ rerr)
          | TK_MUL =>
            some (lv * rv,
              lir ++ rir ++ [irLine v.name (nameOf k0) "*" (nameOf k1)],
              lerr ++ rerr)
          | TK_DIV =>
            some (Int.tdiv lv rv,
              lir ++ rir ++ [irLine v.name (nameOf k0) "/" (nameOf k1)],
              lerr ++ rerr)
          | _ => some (0, lir ++ rir, lerr ++ rerr)
        | _, _ => none
    else
      some (0, [], ["Unknown operator/operand"])

/-- A number token carrying the name payload the token source attached. -/
def numTok (name : String) (n : Int) : Token := ⟨TK_NUM, ⟨name, n⟩⟩

/-- An operator / punctuation token (no payload). -/
def opTok (k : TokenKind) : Token := ⟨k, ⟨"", 0⟩⟩

/-- Initial parser state for a token stream: counter starts at 0
(zero-initialised `static int tmpNo`). -/
def initState (toks : List Token) : PState := ⟨toks, 0⟩

instance {ε α : Type} [DecidableEq ε] [DecidableEq α] :
    DecidableEq (Except ε α) := fun a b =>
  match a, b with
  | Except.ok x, Except.ok y =>
    if h : x = y then isTrue (by rw [h]) else isFalse (by simp [h])
  | Except.ok _, Except.error _ => isFalse (by simp)
  | Except.error _, Except.ok _ => isFalse (by simp)
  | Except.error e, Except.error f =>
    if h : e = f then isTrue (by rw [h]) else isFalse (by simp [h])

/-! ### Measures and invariant predicates over the embedded program -/

/-- Number of arithmetic-operator tokens in a token list. -/
def countOps (l : List Token) : Nat :=
  l.countP (fun t => isArithmeticOperator t.kind)

/-- Number of arithmetic-operator nodes in a tree. -/
def opCount : AstExprNodePtr → Nat
  | .null => 0
  | .node op _ l r =>
    (if isArithmeticOperator op then 1 else 0) + opCount l + opCount r

/-- The destination (temporary) names of the arithmetic-operator nodes of a
tree, in infix (in-order) traversal order — the order in which the parser
recognised the corresponding operator tokens. -/
def inorderNames : AstExprNodePtr → List String
  | .null => []
  | .node op v l r =>
    inorderNames l ++ (if isArithmeticOperator op then [v.name] else []) ++
      inorderNames r

/-- The value payloads of the literal (`TK_NUM`) nodes of a tree. -/
def leafVals : AstExprNodePtr → List Value
  | .null => []
  | .node op v l r =>
    (if op = TK_NUM then [v] else []) ++ leafVals l ++ leafVals r

/-- All non-null nodes of a tree (the tree itself and, recursively, its
children). -/
def subnodes : AstExprNodePtr → List AstExprNodePtr
  | .null => []
  | .node op v l r => .node op v l r :: (subnodes l ++ subnodes r)

/-- The structural invariant of parsed trees: a node is either a literal
leaf (`TK_NUM`, both children null) or an arithmetic-operator node with
two well-formed (hence non-null) children. -/
inductive WF : AstExprNodePtr → Prop
  | num (v : Value) : WF (.node TK_NUM v .null .null)
  | bin (op : TokenKind) (v : Value) (l r : AstExprNodePtr) :
      isArithmeticOperator op = true → WF l → WF r → WF (.node op v l r)

/-- The per-node shape dichotomy of the spec: a literal with both children
null, or an operator node with both children non-null. -/
def nodeShaped (p : AstExprNodePtr) : Prop :=
  (∃ v, p = .node TK_NUM v .null .null) ∨
  (∃ op v l r, p = .node op v l r ∧ isArithmeticOperator op = true ∧
    l ≠ .null ∧ r ≠ .null)

/-- Postcondition of a successful tree-producing parsing call that started
in state `s` and returned tree `t` in state `s1`: some prefix `pre` of the
tokens was consumed, the tree is well-formed, exactly one temporary was
allocated per operator token consumed, the destination names of the tree
in operator-recognition order are the consecutive temporaries starting at
the counter value at call time, and every literal payload in the tree is
the payload of a consumed `TK_NUM` token. -/
def ParseOk (s : PState) (t : AstExprNodePtr) (s1 : PState) : Prop :=
  ∃ pre, s.toks = pre ++ s1.toks
    ∧ WF t
    ∧ s1.tmpNo = s.tmpNo + countOps pre
    ∧ opCount t = countOps pre
    ∧ inorderNames t = (List.range' s.tmpNo (countOps pre)).map tempName
    ∧ ∀ v ∈ leafVals t, ∃ tok ∈ pre, tok.kind = TK_NUM ∧ tok.value = v

/-- Postcondition of the `while`-loop helpers, relative to the
accumulated left operand `left`. -/
def LoopOk (left : AstExprNodePtr) (s : PState) (t : AstExprNodePtr)
    (s1 : PState) : Prop :=
  ∃ pre, s.toks = pre ++ s1.toks
    ∧ (WF left → WF t)
    ∧ s1.tmpNo = s.tmpNo + countOps pre
    ∧ opCount t = opCount left + countOps pre
    ∧ inorderNames t =
        inorderNames left ++ (List.range' s.tmpNo (countOps pre)).map tempName
    ∧ ∀ v ∈ leafVals t,
        v ∈ leafVals left ∨ ∃ tok ∈ pre, tok.kind = TK_NUM ∧ tok.value = v

/-! ### Heap-threaded evaluator (for the frame property)

`EvalExpression` in the C code walks a pointer structure in memory. To
state that it is a read-only traversal, the evaluator is repeated here
over an explicit heap of nodes (addresses are indices into a list), with
the heap threaded through the recursion exactly where the C control flow
passes through; field reads at emission time go through the threaded
heap, and there is no store operation because the C function performs
none. -/

/-- A heap-resident AST node: operator, value payload, and two child
pointers (`none` = NULL). -/
structure HNode where
  op : TokenKind
  value : Value
  kid0 : Option Nat
  kid1 : Option Nat
  deriving DecidableEq, Repr

/-- A heap of AST nodes, addressed by list index. -/
abbrev Heap := List HNode

/-- The heap-threaded `EvalExpression`: returns the numeric result, the
emitted IR lines, the reported messages, and the heap as it stands after
the call. The operand and destination names are read from the heap after
the two recursive calls, as in the C code. `none` models a failing
`assert` (null or dangling root, or a null child of an arithmetic node);
the fuel-0 result is an artefact of the fuelled embedding. -/
def EvalExpressionH : Nat → Heap → Option Nat →
    Option (Int × List String × List String × Heap)
  | 0, _, _ => none
  | _ + 1, _, none => none
  | n + 1, h, some a =>
    match h.get? a with
    | none => none
    | some nd =>
      if nd.op = TK_NUM then some (nd.value.numVal, [], [], h)
      else if isArithmeticOperator nd.op then
        match nd.kid0, nd.kid1 with
        | some a0, some a1 =>
          (match EvalExpressionH n h (some a0) with
          | none => none
          | some (lv, lir, lerr, h1) =>
            match EvalExpressionH n h1 (some a1) with
            | none => none
            | some (rv, rir, rerr, h2) =>
              let dst := match h2.get? a with
                | some k => k.value.name
                | none => ""
              let lname := match h2.get? a0 with
                | some k => k.value.name
                | none => ""
              let rname := match h2.get? a1 with
                | some k => k.value.name
                | none => ""
              match nd.op with
              | TK_ADD =>
                some (lv + rv, lir ++ rir ++ [irLine dst lname "+" rname],
                  lerr ++ rerr, h2)
              | TK_SUB =>
                some (lv - rv, lir ++ rir ++ [irLine dst lname "-" rname],
                  lerr ++ rerr, h2)
              | TK_MUL =>
                some (lv * rv, lir ++ rir ++ [irLine dst lname "*" rname],
                  lerr ++ rerr, h2)
              | TK_DIV =>
                some (Int.tdiv lv rv, lir ++ rir ++ [irLine dst lname "/" rname],
                  lerr ++ rerr, h2)
              | _ => some (0, lir ++ rir, lerr ++ rerr, h2))
        | _, _ => none
      else some (0, [], ["Unknown operator/operand"], h)

/-! ### Concrete token streams for the spec's examples -/

/-- Token stream of `2 * 3 + 4`, the literal tokens carrying the name
payloads `na`, `nb`, `nc` attached by the token source. -/
def toksMulAdd (na nb nc : String) : List Token :=
  [numTok na 2, opTok TK_MUL, numTok nb 3, opTok TK_ADD, numTok nc 4]

/-- Token stream of `(1 + 2) * 3`. -/
def toksParenMul (na nb nc : String) : List Token :=
  [opTok TK_LPAREN, numTok na 1, opTok TK_ADD, numTok nb 2, opTok TK_RPAREN,
    opTok TK_MUL, numTok nc 3]

/-- Token stream of `3 + 4`. -/
def toksAdd (na nb : String) : List Token :=
  [numTok na 3, opTok TK_ADD, numTok nb 4]

/-- Token stream of the unterminated group `(1 + 2`. -/
def toksUnterminated : List Token :=
  [opTok TK_LPAREN, numTok "1" 1, opTok TK_ADD, numTok "2" 2]

/-- A concrete heap holding the tree of `3 + 4` at address 0, for
exercising the heap-threaded evaluator. -/
def heapAdd : Heap :=
  [⟨TK_ADD, ⟨"t0", 0⟩, some 1, some 2⟩,
   ⟨TK_NUM, ⟨"3", 3⟩, none, none⟩,
   ⟨TK_NUM, ⟨"4", 4⟩, none, none⟩]

/-! ### Basic lemmas -/

theorem countOps_append (l1 l2 : List Token) :
    countOps (l1 ++ l2) = countOps l1 + countOps l2 :=
  List.countP_append _ l1 l2

theorem countOps_cons (tok : Token) (l : List Token) :
    countOps (tok :: l) =
      countOps l + (if isArithmeticOperator tok.kind then 1 else 0) := by
  simpa using List.countP_cons (fun t => isArithmeticOperator t.kind) tok l

theorem countOps_nil : countOps [] = 0 := rfl

theorem range_split (c k1 k2 : Nat) :
    List.range' c (k1 + k2) = List.range' c k1 ++ List.range' (c + k1) k2 := by
  have h := List.range'_append c k1 k2 1
  simp only [one_mul] at h
  rw [Nat.add_comm k1 k2]
  exact h.symm

theorem toks_eq_cons {s : PState} (h : (curToken s).kind ≠ TK_EOF) :
    s.toks = curToken s :: (advance s).toks := by
  cases hs : s.toks with
  | nil => exact absurd (by simp [curToken, hs, eofToken]) h
  | cons a l => simp [curToken, advance, hs]

theorem Expect_ok {tk : TokenKind} {s s2 : PState}
    (h : Expect tk s = Except.ok s2) :
    (curToken s).kind = tk ∧ s2 = advance s := by
  by_cases hc : (curToken s).kind = tk
  · simp only [Expect, hc, if_pos rfl] at h
    exact ⟨hc, by cases h; rfl⟩
  · simp [Expect, hc] at h

theorem WF_ne_null {t : AstExprNodePtr} (h : WF t) : t ≠ .null := by
  cases h <;> simp

theorem isArith_ne_num {op : TokenKind}
    (h : isArithmeticOperator op = true) : op ≠ TK_NUM := by
  cases op <;> simp_all [isArithmeticOperator]

theorem isArith_ne_eof {op : TokenKind}
    (h : isArithmeticOperator op = true) : op ≠ TK_EOF := by
  cases op <;> simp_all [isArithmeticOperator]

theorem isArith_cases {op : TokenKind}
    (h : isArithmeticOperator op = true) :
    op = TK_ADD ∨ op = TK_SUB ∨ op = TK_MUL ∨ op = TK_DIV := by
  cases op <;> simp_all [isArithmeticOperator]

/-! ### Composition lemmas for the parser postconditions -/

theorem LoopOk.refl (left : AstExprNodePtr) (s : PState) :
    LoopOk left s left s := by
  refine ⟨[], rfl, id, by simp [countOps_nil], by simp [countOps_nil], ?_, ?_⟩
  · simp [countOps_nil]
  · intro v hv
    exact Or.inl hv

theorem ParseOk.comp_loop {s : PState} {t0 : AstExprNodePtr} {s1 : PState}
    {t : AstExprNodePtr} {s2 : PState}
    (hp : ParseOk s t0 s1) (hl : LoopOk t0 s1 t s2) : ParseOk s t s2 := by
  obtain ⟨p1, htk1, hwf1, htmp1, hop1, hin1, hlv1⟩ := hp
  obtain ⟨p2, htk2, hwf2, htmp2, hop2, hin2, hlv2⟩ := hl
  refine ⟨p1 ++ p2, ?_, hwf2 hwf1, ?_, ?_, ?_, ?_⟩
  · rw [htk1, htk2, List.append_assoc]
  · rw [countOps_append]; omega
  · rw [countOps_append]; omega
  · rw [hin2, hin1, htmp1, countOps_append, range_split, List.map_append]
  · intro v hv
    rcases hlv2 v hv with hL | ⟨tok, htok, hk, hval⟩
    · obtain ⟨tok, htok, hk, hval⟩ := hlv1 v hL
      exact ⟨tok, List.mem_append_left _ htok, hk, hval⟩
    · exact ⟨tok, List.mem_append_right _ htok, hk, hval⟩

theorem LoopOk.comp {left : AstExprNodePtr} {s : PState}
    {t0 : AstExprNodePtr} {s1 : PState} {t : AstExprNodePtr} {s2 : PState}
    (h1 : LoopOk left s t0 s1) (h2 : LoopOk t0 s1 t s2) :
    LoopOk left s t s2 := by
  obtain ⟨p1, htk1, hwf1, htmp1, hop1, hin1, hlv1⟩ := h1
  obtain ⟨p2, htk2, hwf2, htmp2, hop2, hin2, hlv2⟩ := h2
  refine ⟨p1 ++ p2, ?_, fun hw => hwf2 (hwf1 hw), ?_, ?_, ?_, ?_⟩
  · rw [htk1, htk2, List.append_assoc]
  · rw [countOps_append]; omega
  · rw [countOps_append]; omega
  · rw [hin2, hin1, htmp1, countOps_append, range_split, List.map_append,
      List.append_assoc]
  · intro v hv
    rcases hlv2 v hv with hL | ⟨tok, htok, hk, hval⟩
    · rcases hlv1 v hL with hL1 | ⟨tok, htok, hk, hval⟩
      · exact Or.inl hL1
      · exact Or.inr ⟨tok, List.mem_append_left _ htok, hk, hval⟩
    · exact Or.inr ⟨tok, List.mem_append_right _ htok, hk, hval⟩

theorem LoopOk.step {s : PState} {left right : AstExprNodePtr} {s2 : PState}
    (hkind : isArithmeticOperator (curToken s).kind = true)
    (hp : ParseOk (advance { s with tmpNo := s.tmpNo + 1 }) right s2) :
    LoopOk left s
      (CreateAstExprNode (curToken s).kind ⟨tempName s.tmpNo, 0⟩ left right)
      s2 := by
  obtain ⟨pr, htk, hwf, htmp, hop, hin, hlv⟩ := hp
  have hcons : s.toks = curToken s :: (advance s).toks :=
    toks_eq_cons (fun he => isArith_ne_eof hkind he)
  have hadv : (advance { s with tmpNo := s.tmpNo + 1 }).toks =
      (advance s).toks := rfl
  have htmpadv : (advance { s with tmpNo := s.tmpNo + 1 }).tmpNo =
      s.tmpNo + 1 := rfl
  refine ⟨curToken s :: pr, ?_, ?_, ?_, ?_, ?_, ?_⟩
  · rw [hcons, ← hadv, htk]; rfl
  · intro hwl
    exact WF.bin _ _ _ _ hkind hwl hwf
  · rw [countOps_cons, hkind, htmp, htmpadv]; simp; omega
  · rw [countOps_cons, hkind]
    simp only [CreateAstExprNode, opCount, hkind, if_pos rfl]
    omega
  · rw [countOps_cons]
    simp only [CreateAstExprNode, inorderNames, hkind, if_true]
    rw [hin, htmpadv,
      show countOps pr + 1 = 1 + countOps pr from Nat.add_comm _ _,
      range_split s.tmpNo 1, List.map_append, List.append_assoc]
    simp [List.range']
  · intro v hv
    simp only [CreateAstExprNode, leafVals, isArith_ne_num hkind,
      if_false, List.nil_append, List.mem_append, reduceIte] at hv
    rcases hv with hL | hR
    · exact Or.inl hL
    · obtain ⟨tok, htok, hk, hval⟩ := hlv v hR
      exact Or.inr ⟨tok, List.mem_cons_of_mem _ htok, hk, hval⟩

/-! ### The parser invariant, by induction on the fuel -/

theorem parserOk : ∀ n : Nat,
    (∀ s t s1, PrimaryExpression n s = Except.ok (t, s1) → ParseOk s t s1) ∧
    (∀ left s t s1, MultiplicativeLoop n left s = Except.ok (t, s1) →
      LoopOk left s t s1) ∧
    (∀ s t s1, MultiplicativeExpression n s = Except.ok (t, s1) →
      ParseOk s t s1) ∧
    (∀ left s t s1, AdditiveLoop n left s = Except.ok (t, s1) →
      LoopOk left s t s1) ∧
    (∀ s t s1, AdditiveExpression n s = Except.ok (t, s1) → ParseOk s t s1) ∧
    (∀ s t s1, Expression n s = Except.ok (t, s1) → ParseOk s t s1) := by
  intro n
  induction n with
  | zero =>
    refine ⟨fun s t s1 h => ?_, fun left s t s1 h => ?_, fun s t s1 h => ?_,
      fun left s t s1 h => ?_, fun s t s1 h => ?_, fun s t s1 h => ?_⟩ <;>
      simp [PrimaryExpression, MultiplicativeLoop, MultiplicativeExpression,
        AdditiveLoop, AdditiveExpression, Expression] at h
  | succ n ih =>
    obtain ⟨ihP, ihML, ihM, ihAL, ihA, ihE⟩ := ih
    refine ⟨?_, ?_, ?_, ?_, ?_, ?_⟩
    · -- PrimaryExpression
      intro s t s1 h
      simp only [PrimaryExpression] at h
      split at h
      · rename_i hnum
        simp only [Except.ok.injEq, Prod.mk.injEq] at h
        obtain ⟨rfl, rfl⟩ := h
        refine ⟨[curToken s], ?_, WF.num _, ?_, ?_, ?_, ?_⟩
        · exact toks_eq_cons (by rw [hnum]; intro he; cases he)
        · simp [countOps_cons, countOps_nil, hnum,
            show isArithmeticOperator TK_NUM = false from rfl, advance]
        · simp [countOps_cons, countOps_nil, hnum, CreateAstExprNode, opCount,
            show isArithmeticOperator TK_NUM = false from rfl]
        · simp [countOps_cons, countOps_nil, hnum, CreateAstExprNode,
            inorderNames, show isArithmeticOperator TK_NUM = false from rfl]
        · intro v hv
          simp [CreateAstExprNode, leafVals] at hv
          exact ⟨curToken s, List.mem_singleton.mpr rfl, hnum, hv.symm⟩
      · split at h
        · rename_i hnum hlp
          split at h
          · simp at h
          · rename_i t0 s1x heq
            split at h
            · simp at h
            · rename_i s2 heq2
              simp only [Except.ok.injEq, Prod.mk.injEq] at h
              obtain ⟨rfl, rfl⟩ := h
              obtain ⟨hrp, rfl⟩ := Expect_ok heq2
              obtain ⟨pe, htke, hwfe, htmpe, hope, hine, hlve⟩ := ihE _ _ _ heq
              refine ⟨curToken s :: pe ++ [curToken s1x], ?_, hwfe, ?_, ?_, ?_,
                ?_⟩
              · rw [toks_eq_cons (show (curToken s).kind ≠ TK_EOF by
                    rw [hlp]; intro he; cases he)]
                have h1x : s1x.toks = curToken s1x :: (advance s1x).toks :=
                  toks_eq_cons (by rw [hrp]; intro he; cases he)
                rw [show (advance s).toks = pe ++ s1x.toks from htke, h1x]
                simp
              · simp only [countOps_append, countOps_cons, countOps_nil,
                  hlp, hrp,
                  show isArithmeticOperator TK_LPAREN = false from rfl,
                  show isArithmeticOperator TK_RPAREN = false from rfl,
                  if_false, reduceIte]
                simpa [advance] using htmpe
              · simp only [countOps_append, countOps_cons, countOps_nil,
                  hlp, hrp,
                  show isArithmeticOperator TK_LPAREN = false from rfl,
                  show isArithmeticOperator TK_RPAREN = false from rfl,
                  if_false, reduceIte]
                simpa using hope
              · simp only [countOps_append, countOps_cons, countOps_nil,
                  hlp, hrp,
                  show isArithmeticOperator TK_LPAREN = false from rfl,
                  show isArithmeticOperator TK_RPAREN = false from rfl,
                  if_false, reduceIte]
                simpa [advance] using hine
              · intro v hv
                obtain ⟨tok, htok, hk, hval⟩ := hlve v hv
                exact ⟨tok, by simp [List.mem_cons, List.mem_append, htok],
                  hk, hval⟩
        · simp at h
    · -- MultiplicativeLoop
      intro left s t s1 h
      simp only [MultiplicativeLoop, NewTemp] at h
      split at h
      · rename_i hcond
        split at h
        · simp at h
        · rename_i right s2 heq
          have harith : isArithmeticOperator (curToken s).kind = true := by
            rcases hcond with hk | hk <;> simp [isArithmeticOperator, hk]
          exact (LoopOk.step harith (ihP _ _ _ heq)).comp (ihML _ _ _ _ h)
      · simp only [Except.ok.injEq, Prod.mk.injEq] at h
        obtain ⟨rfl, rfl⟩ := h
        exact LoopOk.refl _ _
    · -- MultiplicativeExpression
      intro s t s1 h
      simp only [MultiplicativeExpression] at h
      split at h
      · simp at h
      · rename_i left0 s0 heq
        exact (ihP _ _ _ heq).comp_loop (ihML _ _ _ _ h)
    · -- AdditiveLoop
      intro left s t s1 h
      simp only [AdditiveLoop, NewTemp] at h
      split at h
      · rename_i hcond
        split at h
        · simp at h
        · rename_i right s2 heq
          have harith : isArithmeticOperator (curToken s).kind = true := by
            rcases hcond with hk | hk <;> simp [isArithmeticOperator, hk]
          exact (LoopOk.step harith (ihM _ _ _ heq)).comp (ihAL _ _ _ _ h)
      · simp only [Except.ok.injEq, Prod.mk.injEq] at h
        obtain ⟨rfl, rfl⟩ := h
        exact LoopOk.refl _ _
    · -- AdditiveExpression
      intro s t s1 h
      simp only [AdditiveExpression] at h
      split at h
      · simp at h
      · rename_i left0 s0 heq
        exact (ihM _ _ _ heq).comp_loop (ihAL _ _ _ _ h)
    · -- Expression
      intro s t s1 h
      simp only [Expression] at h
      exact ihA _ _ _ h

/-- The parser invariant for the entry point `Expression`. -/
theorem Expression_ok {n : Nat} {s : PState} {t : AstExprNodePtr}
    {s1 : PState} (h : Expression n s = Except.ok (t, s1)) : ParseOk s t s1 :=
  (parserOk n).2.2.2.2.2 s t s1 h

/-! ### The evaluator on well-formed trees -/

/-- On a well-formed tree, evaluation succeeds, reports no error, and
emits exactly one instruction per arithmetic-operator node. -/
theorem eval_WF {t : AstExprNodePtr} (h : WF t) :
    ∃ res ir, EvalExpression t = some (res, ir, []) ∧
      ir.length = opCount t := by
  induction h with
  | num v =>
    exact ⟨v.numVal, [], rfl, rfl⟩
  | bin op v l r harith hl hr ihl ihr =>
    obtain ⟨lres, lir, hle, hll⟩ := ihl
    obtain ⟨rres, rir, hre, hrl⟩ := ihr
    have hln := WF_ne_null hl
    have hrn := WF_ne_null hr
    rcases isArith_cases harith with rfl | rfl | rfl | rfl
    · refine ⟨lres + rres,
        lir ++ rir ++ [irLine v.name (nameOf l) "+" (nameOf r)], ?_, ?_⟩
      · simp [EvalExpression, hln, hrn, hle, hre, harith]
      · simp only [opCount, List.length_append, List.length_singleton]
        simp [harith]; omega
    · refine ⟨lres - rres,
        lir ++ rir ++ [irLine v.name (nameOf l) "-" (nameOf r)], ?_, ?_⟩
      · simp [EvalExpression, hln, hrn, hle, hre, harith]
      · simp only [opCount, List.length_append, List.length_singleton]
        simp [harith]; omega
    · refine ⟨lres * rres,
        lir ++ rir ++ [irLine v.name (nameOf l) "*" (nameOf r)], ?_, ?_⟩
      · simp [EvalExpression, hln, hrn, hle, hre, harith]
      · simp only [opCount, List.length_append, List.length_singleton]
        simp [harith]; omega
    · refine ⟨Int.tdiv lres rres,
        lir ++ rir ++ [irLine v.name (nameOf l) "/" (nameOf r)], ?_, ?_⟩
      · simp [EvalExpression, hln, hrn, hle, hre, harith]
      · simp only [opCount, List.length_append, List.length_singleton]
        simp [harith]; omega

/-- Every non-null node of a well-formed tree has one of the two legal
shapes. -/
theorem WF_shaped {t : AstExprNodePtr} (h : WF t) :
    ∀ p ∈ subnodes t, nodeShaped p := by
  induction h with
  | num v =>
    intro p hp
    simp [subnodes] at hp
    exact Or.inl ⟨v, hp⟩
  | bin op v l r harith hl hr ihl ihr =>
    intro p hp
    simp only [subnodes, List.mem_cons, List.mem_append] at hp
    rcases hp with rfl | hp | hp
    · exact Or.inr ⟨op, v, l, r, rfl, harith, WF_ne_null hl, WF_ne_null hr⟩
    · exact ihl p hp
    · exact ihr p hp

/-! ### Heap preservation of the heap-threaded evaluator -/

/-- The heap-threaded evaluator never changes the heap: the heap it
returns is the heap it was given. -/
theorem evalH_heap : ∀ (n : Nat) (h : Heap) (p : Option Nat)
    (out : Int × List String × List String × Heap),
    EvalExpressionH n h p = some out → out.2.2.2 = h := by
  intro n
  induction n with
  | zero =>
    intro h p out hout
    simp [EvalExpressionH] at hout
  | succ n ih =>
    intro h p out hout
    cases p with
    | none => simp [EvalExpressionH] at hout
    | some a =>
      simp only [EvalExpressionH] at hout
      split at hout
      · simp at hout
      · rename_i nd hnd
        split at hout
        · rename_i hnum
          simp only [Option.some.injEq] at hout
          rw [← hout]
        · split at hout
          · rename_i harith
            split at hout
            · rename_i a0 a1 ha0 ha1
              split at hout
              · simp at hout
              · rename_i lv lir lerr h1 heq1
                split at hout
                · simp at hout
                · rename_i rv rir rerr h2 heq2
                  have e1 : h1 = h := ih h (some a0) (lv, lir, lerr, h1) heq1
                  have e2 : h2 = h1 := ih h1 (some a1) (rv, rir, rerr, h2) heq2
                  split at hout <;>
                    (simp only [Option.some.injEq] at hout
                     rw [← hout]
                     simp [e1, e2])
            · simp at hout
          · simp only [Option.some.injEq] at hout
            rw [← hout]

/-! ### Fuel persistence: settled results are stable under more fuel -/

theorem fuelPersist : ∀ n : Nat,
    (∀ s r, PrimaryExpression n s = r → r ≠ Except.error PError.outOfFuel →
      PrimaryExpression (n + 1) s = r) ∧
    (∀ left s r, MultiplicativeLoop n left s = r →
      r ≠ Except.error PError.outOfFuel →
      MultiplicativeLoop (n + 1) left s = r) ∧
    (∀ s r, MultiplicativeExpression n s = r →
      r ≠ Except.error PError.outOfFuel →
      MultiplicativeExpression (n + 1) s = r) ∧
    (∀ left s r, AdditiveLoop n left s = r →
      r ≠ Except.error PError.outOfFuel →
      AdditiveLoop (n + 1) left s = r) ∧
    (∀ s r, AdditiveExpression n s = r → r ≠ Except.error PError.outOfFuel →
      AdditiveExpression (n + 1) s = r) ∧
    (∀ s r, Expression n s = r → r ≠ Except.error PError.outOfFuel →
      Expression (n + 1) s = r) := by
  intro n
  induction n with
  | zero =>
    refine ⟨fun s r h hne => ?_, fun left s r h hne => ?_,
      fun s r h hne => ?_, fun left s r h hne => ?_, fun s r h hne => ?_,
      fun s r h hne => ?_⟩ <;>
      (simp only [PrimaryExpression, MultiplicativeLoop,
        MultiplicativeExpression, AdditiveLoop, AdditiveExpression,
        Expression] at h
       exact absurd h.symm hne)
  | succ n ih =>
    obtain ⟨ihP, ihML, ihM, ihAL, ihA, ihE⟩ := ih
    refine ⟨?_, ?_, ?_, ?_, ?_, ?_⟩
    · -- PrimaryExpression
      intro s r h hne
      simp only [PrimaryExpression] at h ⊢
      by_cases h1 : (curToken s).kind = TK_NUM
      · rw [if_pos h1] at h ⊢; exact h
      · rw [if_neg h1] at h ⊢
        by_cases h2 : (curToken s).kind = TK_LPAREN
        · rw [if_pos h2] at h ⊢
          cases hE : Expression n (advance s) with
          | error e =>
            rw [hE] at h
            by_cases he : e = PError.outOfFuel
            · subst he; exact absurd h.symm hne
            · rw [ihE _ _ hE (by simp [he])]; exact h
          | ok pr =>
            rw [hE] at h
            rw [ihE _ _ hE (by simp)]
            exact h
        · rw [if_neg h2] at h ⊢; exact h
    · -- MultiplicativeLoop
      intro left s r h hne
      simp only [MultiplicativeLoop, NewTemp] at h ⊢
      by_cases h1 : (curToken s).kind = TK_MUL ∨ (curToken s).kind = TK_DIV
      · rw [if_pos h1] at h ⊢
        cases hP : PrimaryExpression n
            (advance { toks := s.toks, tmpNo := s.tmpNo + 1 }) with
        | error e =>
          rw [hP] at h
          by_cases he : e = PError.outOfFuel
          · subst he; exact absurd h.symm hne
          · rw [ihP _ _ hP (by simp [he])]; exact h
        | ok pr =>
          rw [hP] at h
          rw [ihP _ _ hP (by simp)]
          obtain ⟨right, s2⟩ := pr
          exact ihML _ _ _ h hne
      · rw [if_neg h1] at h ⊢; exact h
    · -- MultiplicativeExpression
      intro s r h hne
      simp only [MultiplicativeExpression] at h ⊢
      cases hP : PrimaryExpression n s with
      | error e =>
        rw [hP] at h
        by_cases he : e = PError.outOfFuel
        · subst he; exact absurd h.symm hne
        · rw [ihP _ _ hP (by simp [he])]; exact h
      | ok pr =>
        rw [hP] at h
        rw [ihP _ _ hP (by simp)]
        obtain ⟨left, s1⟩ := pr
        exact ihML _ _ _ h hne
    · -- AdditiveLoop
      intro left s r h hne
      simp only [AdditiveLoop, NewTemp] at h ⊢
      by_cases h1 : (curToken s).kind = TK_SUB ∨ (curToken s).kind = TK_ADD
      · rw [if_pos h1] at h ⊢
        cases hM : MultiplicativeExpression n
            (advance { toks := s.toks, tmpNo := s.tmpNo + 1 }) with
        | error e =>
          rw [hM] at h
          by_cases he : e = PError.outOfFuel
          · subst he; exact absurd h.symm hne
          · rw [ihM _ _ hM (by simp [he])]; exact h
        | ok pr =>
          rw [hM] at h
          rw [ihM _ _ hM (by simp)]
          obtain ⟨right, s2⟩ := pr
          exact ihAL _ _ _ h hne
      · rw [if_neg h1] at h ⊢; exact h
    · -- AdditiveExpression
      intro s r h hne
      simp only [AdditiveExpression] at h ⊢
      cases hM : MultiplicativeExpression n s with
      | error e =>
        rw [hM] at h
        by_cases he : e = PError.outOfFuel
        · subst he; exact absurd h.symm hne
        · rw [ihM _ _ hM (by simp [he])]; exact h
      | ok pr =>
        rw [hM] at h
        rw [ihM _ _ hM (by simp)]
        obtain ⟨left, s1⟩ := pr
        exact ihAL _ _ _ h hne
    · -- Expression
      intro s r h hne
      simp only [Expression] at h ⊢
      exact ihA _ _ h hne

/-- Settled results of `Expression` are stable under added fuel. -/
theorem Expression_persist_add : ∀ (k : Nat) {n : Nat} {s : PState}
    {r : PResult}, Expression n s = r → r ≠ Except.error PError.outOfFuel →
    Expression (n + k) s = r := by
  intro k
  induction k with
  | zero => intro n s r h hne; exact h
  | succ k ih =>
    intro n s r h hne
    exact (fuelPersist (n + k)).2.2.2.2.2 s r (ih h hne) hne

/-- Settled results of `Expression` are stable under any larger fuel. -/
theorem Expression_persist_le {n m : Nat} (hnm : n ≤ m) {s : PState}
    {r : PResult} (h : Expression n s = r)
    (hne : r ≠ Except.error PError.outOfFuel) : Expression m s = r := by
  obtain ⟨k, rfl⟩ := Nat.le.dest hnm
  exact Expression_persist_add k h hne

/-- Parsing is deterministic: two successful parses of the same input
(state) agree, whatever the fuel. -/
theorem Expression_det {n m : Nat} {s : PState}
    {r1 r2 : AstExprNodePtr × PState} (h1 : Expression n s = Except.ok r1)
    (h2 : Expression m s = Except.ok r2) : r1 = r2 := by
  have e1 := Expression_persist_le (Nat.le_max_left n m) h1 (by simp)
  have e2 := Expression_persist_le (Nat.le_max_right n m) h2 (by simp)
  rw [e1] at e2
  simpa using e2

/-! ### Claims -/

/-- C1: for the token stream of `2 * 3 + 4` (literal name payloads
`na`, `nb`, `nc`), parsing with `Expression` and evaluating with
`EvalExpression` returns 10, the multiplication instruction
(destination `t0`) is emitted before the addition instruction
(destination `t1`), so the multiplication's temporary is allocated and
numbered before the addition's, and no error is reported. -/
theorem C1_mul_then_add (na nb nc : String) :
    (Expression 16 (initState (toksMulAdd na nb nc))).map
        (fun p => EvalExpression p.1) =
      Except.ok (some (10,
        [irLine "t0" na "*" nb, irLine "t1" "t0" "+" nc], [])) := by
  simp [Expression, AdditiveExpression, MultiplicativeExpression,
    PrimaryExpression, MultiplicativeLoop, AdditiveLoop, curToken, advance,
    NewTemp, CreateAstExprNode, initState, numTok, opTok, Expect, tempName,
    eofToken, EvalExpression, isArithmeticOperator, nameOf, irLine,
    Except.map, toksMulAdd]
  exact ⟨rfl, rfl⟩

/-- C2: for the token stream of `(1 + 2) * 3`, parsing and evaluating
returns 9, and the parenthesised addition's instruction (destination
`t0`) is emitted before the multiplication's (destination `t1`). -/
theorem C2_paren_add_then_mul (na nb nc : String) :
    (Expression 16 (initState (toksParenMul na nb nc))).map
        (fun p => EvalExpression p.1) =
      Except.ok (some (9,
        [irLine "t0" na "+" nb, irLine "t1" "t0" "*" nc], [])) := by
  simp [Expression, AdditiveExpression, MultiplicativeExpression,
    PrimaryExpression, MultiplicativeLoop, AdditiveLoop, curToken, advance,
    NewTemp, CreateAstExprNode, initState, numTok, opTok, Expect, tempName,
    eofToken, EvalExpression, isArithmeticOperator, nameOf, irLine,
    Except.map, toksParenMul]
  exact ⟨rfl, rfl⟩

/-- C3: for the token stream of `3 + 4`, parsing and evaluating returns 7
and emits exactly one instruction, `t0 = <na> + <nb>` where `na`, `nb`
are the name payloads the token source attached to the literal tokens. -/
theorem C3_single_instruction (na nb : String) :
    (Expression 16 (initState (toksAdd na nb))).map
        (fun p => EvalExpression p.1) =
      Except.ok (some (7, [irLine "t0" na "+" nb], [])) := by
  simp [Expression, AdditiveExpression, MultiplicativeExpression,
    PrimaryExpression, MultiplicativeLoop, AdditiveLoop, curToken, advance,
    NewTemp, CreateAstExprNode, initState, numTok, opTok, Expect, tempName,
    eofToken, EvalExpression, isArithmeticOperator, nameOf, irLine,
    Except.map, toksAdd]
  rfl

/-- C4: for every successful parse, evaluation succeeds, reports no
error, and emits exactly one three-address instruction per arithmetic
operator token (`+ - * /`) among the tokens the parser consumed. -/
theorem C4_one_instruction_per_operator {n : Nat} {s : PState}
    {t : AstExprNodePtr} {s1 : PState}
    (h : Expression n s = Except.ok (t, s1)) :
    ∃ pre res ir, s.toks = pre ++ s1.toks ∧
      EvalExpression t = some (res, ir, []) ∧ ir.length = countOps pre := by
  obtain ⟨pre, htk, hwf, htmp, hop, hin, hlv⟩ := Expression_ok h
  obtain ⟨res, ir, he, hlen⟩ := eval_WF hwf
  exact ⟨pre, res, ir, htk, he, by rw [hlen, hop]⟩

/-- Witness for C4 at the concrete input `2 * 3 + 4`. -/
theorem C4_witness :
    ∃ pre res ir,
      (initState (toksMulAdd "2" "3" "4")).toks =
        pre ++ (⟨[], 2⟩ : PState).toks ∧
      EvalExpression (.node TK_ADD ⟨"t1", 0⟩
        (.node TK_MUL ⟨"t0", 0⟩
          (.node TK_NUM ⟨"2", 2⟩ .null .null)
          (.node TK_NUM ⟨"3", 3⟩ .null .null))
        (.node TK_NUM ⟨"4", 4⟩ .null .null)) = some (res, ir, []) ∧
      ir.length = countOps pre :=
  C4_one_instruction_per_operator
    (show Expression 16 (initState (toksMulAdd "2" "3" "4")) =
      Except.ok (.node TK_ADD ⟨"t1", 0⟩
        (.node TK_MUL ⟨"t0", 0⟩
          (.node TK_NUM ⟨"2", 2⟩ .null .null)
          (.node TK_NUM ⟨"3", 3⟩ .null .null))
        (.node TK_NUM ⟨"4", 4⟩ .null .null), ⟨[], 2⟩) from by decide)

/-- C5: the temporary allocator `NewTemp` returns the current counter and
increments it, returning 0 on its first call from the initial state; on
every successful parse one temporary is allocated per operator token
consumed, never resetting; the destination names of the parsed tree in
left-to-right operator-recognition (in-order) order are the consecutive
temporaries `t<c>, t<c+1>, …` starting at the counter value at call time,
whose numbers are pairwise distinct and strictly increasing; and parsing
is deterministic: two successful parses of the same input agree. -/
theorem C5_temp_allocator :
    (∀ s : PState,
      NewTemp s = (s.tmpNo, { toks := s.toks, tmpNo := s.tmpNo + 1 })) ∧
    (∀ toks : List Token, (NewTemp (initState toks)).1 = 0) ∧
    (∀ (n : Nat) (s : PState) (t : AstExprNodePtr) (s1 : PState),
      Expression n s = Except.ok (t, s1) →
      ∃ pre, s.toks = pre ++ s1.toks ∧
        s1.tmpNo = s.tmpNo + countOps pre ∧
        opCount t = countOps pre ∧
        inorderNames t = (List.range' s.tmpNo (countOps pre)).map tempName ∧
        (List.range' s.tmpNo (countOps pre)).Nodup ∧
        List.Pairwise (· < ·) (List.range' s.tmpNo (countOps pre))) ∧
    (∀ (n m : Nat) (s : PState) (r1 r2 : AstExprNodePtr × PState),
      Expression n s = Except.ok r1 → Expression m s = Except.ok r2 →
      r1 = r2) := by
  refine ⟨fun s => rfl, fun toks => rfl, ?_,
    fun n m s r1 r2 h1 h2 => Expression_det h1 h2⟩
  intro n s t s1 h
  obtain ⟨pre, htk, hwf, htmp, hop, hin, hlv⟩ := Expression_ok h
  exact ⟨pre, htk, htmp, hop, hin, List.nodup_range' _ _,
    List.pairwise_lt_range' _ _⟩

/-- Witness for C5 at the concrete input `2 * 3 + 4`. -/
theorem C5_witness :
    ∃ pre, (initState (toksMulAdd "2" "3" "4")).toks =
        pre ++ (⟨[], 2⟩ : PState).toks ∧
      (⟨[], 2⟩ : PState).tmpNo =
        (initState (toksMulAdd "2" "3" "4")).tmpNo + countOps pre ∧
      opCount (.node TK_ADD ⟨"t1", 0⟩
        (.node TK_MUL ⟨"t0", 0⟩
          (.node TK_NUM ⟨"2", 2⟩ .null .null)
          (.node TK_NUM ⟨"3", 3⟩ .null .null))
        (.node TK_NUM ⟨"4", 4⟩ .null .null)) = countOps pre ∧
      inorderNames (.node TK_ADD ⟨"t1", 0⟩
        (.node TK_MUL ⟨"t0", 0⟩
          (.node TK_NUM ⟨"2", 2⟩ .null .null)
          (.node TK_NUM ⟨"3", 3⟩ .null .null))
        (.node TK_NUM ⟨"4", 4⟩ .null .null)) =
        (List.range' (initState (toksMulAdd "2" "3" "4")).tmpNo
          (countOps pre)).map tempName ∧
      (List.range' (initState (toksMulAdd "2" "3" "4")).tmpNo
        (countOps pre)).Nodup ∧
      List.Pairwise (· < ·)
        (List.range' (initState (toksMulAdd "2" "3" "4")).tmpNo
          (countOps pre)) :=
  C5_temp_allocator.2.2.1 16 (initState (toksMulAdd "2" "3" "4"))
    (.node TK_ADD ⟨"t1", 0⟩
      (.node TK_MUL ⟨"t0", 0⟩
        (.node TK_NUM ⟨"2", 2⟩ .null .null)
        (.node TK_NUM ⟨"3", 3⟩ .null .null))
      (.node TK_NUM ⟨"4", 4⟩ .null .null)) ⟨[], 2⟩ (by decide)

/-- C6: every node of a successfully parsed tree is either a literal
(`TK_NUM`) node with both children null, or an arithmetic-operator node
with both children non-null; and every literal node's numeric payload is
the payload of a `TK_NUM` token of the input stream. -/
theorem C6_node_shape {n : Nat} {s : PState} {t : AstExprNodePtr}
    {s1 : PState} (h : Expression n s = Except.ok (t, s1)) :
    (∀ p ∈ subnodes t, nodeShaped p) ∧
    (∀ v ∈ leafVals t, ∃ tok ∈ s.toks, tok.kind = TK_NUM ∧ tok.value = v) := by
  obtain ⟨pre, htk, hwf, htmp, hop, hin, hlv⟩ := Expression_ok h
  refine ⟨WF_shaped hwf, fun v hv => ?_⟩
  obtain ⟨tok, htok, hk, hval⟩ := hlv v hv
  exact ⟨tok, by rw [htk]; exact List.mem_append_left _ htok, hk, hval⟩

/-- Witness for C6 at the concrete input `3 + 4`. -/
theorem C6_witness :
    (∀ p ∈ subnodes (.node TK_ADD ⟨"t0", 0⟩
        (.node TK_NUM ⟨"3", 3⟩ .null .null)
        (.node TK_NUM ⟨"4", 4⟩ .null .null)), nodeShaped p) ∧
    (∀ v ∈ leafVals (.node TK_ADD ⟨"t0", 0⟩
        (.node TK_NUM ⟨"3", 3⟩ .null .null)
        (.node TK_NUM ⟨"4", 4⟩ .null .null)),
      ∃ tok ∈ (initState (toksAdd "3" "4")).toks,
        tok.kind = TK_NUM ∧ tok.value = v) :=
  C6_node_shape
    (show Expression 16 (initState (toksAdd "3" "4")) =
      Except.ok (.node TK_ADD ⟨"t0", 0⟩
        (.node TK_NUM ⟨"3", 3⟩ .null .null)
        (.node TK_NUM ⟨"4", 4⟩ .null .null), ⟨[], 1⟩) from by decide)

/-- C7: if `EvalExpression` reaches a node whose operator kind is neither
`TK_NUM` nor an arithmetic operator, it reports "Unknown
operator/operand" through the error collaborator and the evaluation of
that subtree yields the fallback value 0, with no instruction emitted. -/
theorem C7_unknown_operator {op : TokenKind} (v : Value)
    (k0 k1 : AstExprNodePtr) (hnum : op ≠ TK_NUM)
    (harith : isArithmeticOperator op = false) :
    EvalExpression (.node op v k0 k1) =
      some (0, [], ["Unknown operator/operand"]) := by
  simp [EvalExpression, hnum, harith]

/-- Witness for C7: a node whose operator kind is `TK_LPAREN`. -/
theorem C7_witness :
    EvalExpression (.node TK_LPAREN ⟨"", 0⟩ .null .null) =
      some (0, [], ["Unknown operator/operand"]) :=
  C7_unknown_operator ⟨"", 0⟩ .null .null (by decide) (by decide)

/-- C8: syntax errors are fatal and unrecoverable. If the current token
is neither a number nor a left parenthesis, `PrimaryExpression` returns
the fatal parse error and no tree; the unterminated group `(1 + 2` never
parses successfully at any fuel (so no IR can be produced), and with
sufficient fuel it returns precisely the fatal error raised by the
expect-token collaborator. -/
theorem C8_syntax_errors :
    (∀ (n : Nat) (s : PState), (curToken s).kind ≠ TK_NUM →
      (curToken s).kind ≠ TK_LPAREN →
      PrimaryExpression (n + 1) s =
        Except.error (PError.fatal "number or parenthesis expected")) ∧
    (∀ (n : Nat) (r : AstExprNodePtr × PState),
      Expression n (initState toksUnterminated) = Except.ok r → False) ∧
    (∀ k : Nat, Expression (10 + k) (initState toksUnterminated) =
      Except.error (PError.fatal "unexpected token")) := by
  have hbase : Expression 10 (initState toksUnterminated) =
      Except.error (PError.fatal "unexpected token") := by decide
  refine ⟨?_, ?_, ?_⟩
  · intro n s h1 h2
    simp [PrimaryExpression, h1, h2]
  · intro n r h
    have hok := Expression_persist_le (Nat.le_add_left n 10) h (by simp)
    have herr := Expression_persist_le (Nat.le_add_right 10 n) hbase (by simp)
    rw [hok] at herr
    simp at herr
  · intro k
    exact Expression_persist_le (Nat.le_add_right 10 k) hbase (by simp)

/-- Witness for C8: a concrete bad first token, and the concrete
unterminated group. -/
theorem C8_witness :
    PrimaryExpression 1 (initState [opTok TK_MUL]) =
      Except.error (PError.fatal "number or parenthesis expected") ∧
    Expression 10 (initState toksUnterminated) =
      Except.error (PError.fatal "unexpected token") :=
  ⟨C8_syntax_errors.1 0 (initState [opTok TK_MUL]) (by decide) (by decide),
    C8_syntax_errors.2.2 0⟩

/-- C9: a `TK_DIV` node is evaluated with the host's truncating integer
division (`Int.tdiv`), with no check whatsoever on the divisor — the
conclusion holds without any hypothesis on `rv`, including `rv = 0`, in
which case the result is whatever the host division yields there. The
second conjunct pins down truncation toward zero on sign cases. -/
theorem C9_division :
    (∀ (v : Value) (k0 k1 : AstExprNodePtr) (lv : Int) (lir lerr : List String)
      (rv : Int) (rir rerr : List String),
      k0 ≠ .null → k1 ≠ .null →
      EvalExpression k0 = some (lv, lir, lerr) →
      EvalExpression k1 = some (rv, rir, rerr) →
      EvalExpression (.node TK_DIV v k0 k1) =
        some (Int.tdiv lv rv,
          lir ++ rir ++ [irLine v.name (nameOf k0) "/" (nameOf k1)],
          lerr ++ rerr)) ∧
    (Int.tdiv 7 2 = 3 ∧ Int.tdiv (-7) 2 = -3 ∧ Int.tdiv 7 (-2) = -3 ∧
      Int.tdiv (-7) (-2) = 3) := by
  refine ⟨?_, by decide, by decide, by decide, by decide⟩
  intro v k0 k1 lv lir lerr rv rir rerr hk0 hk1 hl hr
  simp [EvalExpression, hk0, hk1, hl, hr,
    show isArithmeticOperator TK_DIV = true from rfl]

/-- Witness for C9: `1 / 0` — the division node is still evaluated, with
no guard, the host division yielding `Int.tdiv 1 0`. -/
theorem C9_witness :
    EvalExpression (.node TK_DIV ⟨"t0", 0⟩
      (.node TK_NUM ⟨"1", 1⟩ .null .null)
      (.node TK_NUM ⟨"0", 0⟩ .null .null)) =
      some (Int.tdiv 1 0, [irLine "t0" "1" "/" "0"], []) :=
  C9_division.1 ⟨"t0", 0⟩ (.node TK_NUM ⟨"1", 1⟩ .null .null)
    (.node TK_NUM ⟨"0", 0⟩ .null .null) 1 [] [] 0 [] []
    (by decide) (by decide) rfl rfl

/-- C10: evaluation is a read-only traversal — the heap-threaded
evaluator returns the very heap it was given, so no field of any node is
modified and the tree after evaluation is identical to the tree before
it. -/
theorem C10_eval_readonly {n : Nat} {h : Heap} {p : Option Nat} {res : Int}
    {ir errs : List String} {h1 : Heap}
    (he : EvalExpressionH n h p = some (res, ir, errs, h1)) : h1 = h :=
  evalH_heap n h p (res, ir, errs, h1) he

/-- Witness for C10 on the concrete heap of `3 + 4`. -/
theorem C10_witness : (heapAdd : Heap) = heapAdd :=
  C10_eval_readonly (show EvalExpressionH 4 heapAdd (some 0) =
    some (7, [irLine "t0" "3" "+" "4"], [], heapAdd) by decide)

end Expr

